import Mathlib

/-!
Shallow embedding of `InteractiveHtmlBom/generate_interactive_bom.py`
(a KiCad interactive-BOM generator) and proofs about it.

Modelling conventions:
* Native board coordinates are integers (`ℤ`); document coordinates are
  exact rationals (`ℚ`).  The Python floats `1e-6` and `0.1` are modelled
  by the exact rationals `1e-6` and `0.1`.
* Python dictionaries keyed by insertion are modelled by association
  lists; dictionary key-value assignment is `dictSet`.
* A Python value that is either an `int` or a one-element tuple (the
  polygon `angle` field) is modelled by the sum type `PolyAngle`.
* Logging is side-effect free and dropped; `return None` becomes `none`.
* `pcbnew` enumeration constants are fixed distinct integers; only their
  distinctness is ever used.
-/

namespace IBom

/-- Distinct constants: the `pcbnew` shape codes (`STROKE_T`). -/
def S_SEGMENT : Nat := 0
def S_RECT : Nat := 1
def S_ARC : Nat := 2
def S_CIRCLE : Nat := 3
def S_POLYGON : Nat := 4

/-- Distinct constants: the `pcbnew` layer identifiers. -/
def F_Cu : ℤ := 0
def B_Cu : ℤ := 31
def F_SilkS : ℤ := 37
def B_SilkS : ℤ := 36
def Edge_Cuts : ℤ := 44

/-- Distinct constants: the `pcbnew` pad shape codes. -/
def PAD_SHAPE_CIRCLE : Nat := 0
def PAD_SHAPE_RECT : Nat := 1
def PAD_SHAPE_OVAL : Nat := 2
def PAD_SHAPE_TRAPEZOID : Nat := 3
def PAD_SHAPE_ROUNDRECT : Nat := 4
def PAD_SHAPE_CUSTOM : Nat := 5

/-- Distinct constants: the `pcbnew` pad attribute codes. -/
def PAD_ATTRIB_STANDARD : Nat := 0
def PAD_ATTRIB_SMD : Nat := 1
def PAD_ATTRIB_CONN : Nat := 2
def PAD_ATTRIB_HOLE_NOT_PLATED : Nat := 3

/-- Distinct constants: the `pcbnew` drill shape codes. -/
def PAD_DRILL_SHAPE_CIRCLE : Nat := 0
def PAD_DRILL_SHAPE_OBLONG : Nat := 1

/-! ## Natural sort (`convert` / `alphanum_key` / `natural_sort`)

`re.split('([0-9]+)', key)` splits a string into an alternating list of
(possibly empty) non-digit pieces and non-empty digit pieces, keeping the
digit pieces.  `convert` turns a digit piece into an `int` and lowercases a
non-digit piece.  Under Python 2 comparison an `int` is smaller than any
`str`, which we model by the lexicographic sum `ℕ ⊕ₗ List Char`. -/

/-- One element of an `alphanum_key`: a Python `int` (left) or `str`
(right, as a list of characters).  Lexicographic sum order: every int is
below every string, ints compare as numbers, strings lexicographically —
exactly CPython 2 comparison for these operands. -/
abbrev Tok := ℕ ⊕ₗ List Char

/-- Digit-string to number, `int(text)`. -/
def digitsToNat (cs : List Char) : ℕ :=
  cs.foldl (fun n c => 10 * n + (c.toNat - '0'.toNat)) 0

/-- Python `convert(text) = int(text) if text.isdigit() else text.lower()`,
specialised to the two kinds of pieces `re.split('([0-9]+)', ·)` emits. -/
def numTok (cs : List Char) : Tok := toLex (Sum.inl (digitsToNat cs))

def strTok (cs : List Char) : Tok := toLex (Sum.inr (cs.map Char.toLower))

/-- Python `[convert(c) for c in re.split('([0-9]+)', key)]` on a character list:
alternates a (possibly empty) non-digit piece with a non-empty digit
piece, beginning and ending with a non-digit piece. -/
def chunks (cs : List Char) : List Tok :=
  let t := cs.takeWhile (fun c => !c.isDigit)
  let r := cs.dropWhile (fun c => !c.isDigit)
  if h : r = [] then [strTok t]
  else
    strTok t :: numTok (r.takeWhile Char.isDigit) :: chunks (r.dropWhile Char.isDigit)
termination_by cs.length
decreasing_by
  have hsub : r.Sublist cs := List.dropWhile_sublist _
  have hlen : r.length ≤ cs.length := hsub.length_le
  cases hr : r with
  | nil => exact absurd hr h
  | cons c r' =>
    have hr' : List.dropWhile (fun c => !c.isDigit) cs = c :: r' := hr
    have hc : c.isDigit = true := by
      have h2 := List.head_dropWhile_not (fun c => !c.isDigit) (l := cs)
      rw [hr'] at h2
      simpa using h2 (by simp)
    have : (r.dropWhile Char.isDigit).length < r.length := by
      rw [hr, List.dropWhile_cons, if_pos hc]
      exact Nat.lt_of_le_of_lt (List.dropWhile_sublist _).length_le (by simp)
    exact Nat.lt_of_lt_of_le this hlen

/-- Python `alphanum_key(key)`. -/
def alphanum_key (s : String) : List Tok := chunks s.data

/-- Comparison of two rows' key lists, as Python `sorted` compares keys. -/
def alpha_le (a b : String) : Prop := alphanum_key a ≤ alphanum_key b

instance : DecidableRel alpha_le := fun a b =>
  inferInstanceAs (Decidable (alphanum_key a ≤ alphanum_key b))

instance : IsTotal String alpha_le := ⟨fun a b => le_total (alphanum_key a) (alphanum_key b)⟩

instance : IsTrans String alpha_le := ⟨fun _ _ _ hab hbc => le_trans hab hbc⟩

/-- Python `natural_sort(l) = sorted(l, key=alphanum_key)`. -/
def natural_sort (l : List String) : List String := List.insertionSort alpha_le l

/-! ## Geometry normalizer -/

/-- Python `normalize(point) = [point[0] * 1e-6, point[1] * 1e-6]`. -/
def normalize (p : ℤ × ℤ) : ℚ × ℚ := ((p.1 : ℚ) * 1e-6, (p.2 : ℚ) * 1e-6)

/-- Scaling of a single native length, `x * 1e-6`. -/
def scaleLen (x : ℤ) : ℚ := (x : ℚ) * 1e-6

/-! ## Input data model (board-model snapshot, duck-typed)

`Item` carries every accessor any branch of `parse_drawing` may call on a
drawing or text primitive; `has…` fields model `hasattr` probes.
`parentOrientation` is `some o` when `GetParentModule()` is not `None` and
that module's `GetOrientation()` is `o`. -/

/-- One outline of a `SHAPE_POLY_SET`; `hasPointCount` models
`hasattr(outline, "PointCount")`. -/
structure Outline where
  hasPointCount : Bool
  points : List (ℤ × ℤ)
deriving DecidableEq

/-- A `SHAPE_POLY_SET`. -/
structure PolySet where
  outlines : List Outline
  hasHoles : Bool
  selfIntersecting : Bool
deriving DecidableEq

/-- An `EDA_RECT` of `pcbnew` (external library): position and (possibly
negative) size. -/
structure Rect where
  x : ℤ
  y : ℤ
  w : ℤ
  h : ℤ
deriving DecidableEq

/-- Method `EDA_RECT.Normalize()`: flip a negative-size rectangle. -/
def rectNormalize (r : Rect) : Rect :=
  { x := if r.w < 0 then r.x + r.w else r.x
    y := if r.h < 0 then r.y + r.h else r.y
    w := if r.w < 0 then -r.w else r.w
    h := if r.h < 0 then -r.h else r.h }

/-- Method `EDA_RECT.Merge(other)`: bounding box of the two normalized boxes. -/
def rectMerge (a b : Rect) : Rect :=
  let a := rectNormalize a
  let b := rectNormalize b
  let x := min a.x b.x
  let y := min a.y b.y
  { x := x, y := y
    w := max (a.x + a.w) (b.x + b.w) - x
    h := max (a.y + a.h) (b.y + b.h) - y }

/-- A drawing or text primitive, with every accessor the parsers probe. -/
structure Item where
  klass : String
  layer : ℤ
  boundingBox : Rect
  shapeCode : Nat
  start : ℤ × ℤ
  end_ : ℤ × ℤ
  width : ℤ
  radius : ℤ
  arcAngleStart : ℤ
  angle : ℤ
  hasPolyShape : Bool
  polyShape : PolySet
  parentOrientation : Option ℤ
  position : ℤ × ℤ
  visible : Bool
  drawRotation : ℤ
  hasTextAngle : Bool
  textAngle : ℤ
  orientation : ℤ
  hasTextHeight : Bool
  textHeight : ℤ
  textWidth : ℤ
  height : ℤ
  hasShownText : Bool
  shownText : String
  text : String
  horizJustify : ℤ
deriving DecidableEq

/-- One pad, with every accessor `parse_pad` probes.  `padAttr` is
`GetAttribute()`, `layerSet` is `GetLayerSet().Seq()`. -/
structure Pad where
  layerSet : List ℤ
  position : ℤ × ℤ
  size : ℤ × ℤ
  padName : String
  orientation : ℤ
  shapeCode : Nat
  customShape : PolySet
  roundRectCornerRadius : ℤ
  padAttr : Nat
  drillShapeCode : Nat
  drillSize : ℤ × ℤ
  hasOffset : Bool
  offset : ℤ × ℤ
deriving DecidableEq

/-- One footprint (module).  `footprintName` is `some`
`GetFPID().GetFootprintName()` when that accessor exists, otherwise
`GetFPID().GetLibItemName()` is used (the `try`/`except` at the top of
`generate_bom`). -/
structure Module where
  ref : String
  value : String
  footprintName : Option String
  libItemName : String
  attr : ℤ
  layer : ℤ
  center : ℤ × ℤ
  rectPos : ℤ × ℤ
  rectSize : ℤ × ℤ
  orientation : ℤ
  graphicalItems : List Item
  referenceItem : Item
  valueItem : Item
  pads : List Pad
deriving DecidableEq

/-- Capabilities of the ambient `pcbnew` module:
`hasattr(pcbnew, "PAD_SHAPE_ROUNDRECT")` / `…_CUSTOM`. -/
structure Api where
  hasRoundRect : Bool
  hasCustom : Bool
deriving DecidableEq

/-- The board plus the external-shell inputs `main` consumes.
`fileMtimeStr` is the formatted modification time of the board file and
`fileBaseName` its extensionless base name (both produced by the external
shell). -/
structure Pcb where
  fileName : String
  drawings : List Item
  modules : List Module
  titleTitle : String
  titleDate : String
  titleRevision : String
  titleCompany : String
  fileMtimeStr : String
  fileBaseName : String

/-! ## Output records -/

/-- The polygon `angle` value: the Python code leaves the integer `0` when
the shape has no parent module, and — because of a trailing comma on the
assignment — stores a one-element tuple when it has one. -/
inductive PolyAngle where
  | intVal (n : ℤ)
  | tupleVal (q : ℚ)
deriving DecidableEq

/-- A parsed drawing record (the dictionaries built by
`parse_draw_segment` / `parse_text`). -/
inductive Drawing where
  | segment (start end_ : ℚ × ℚ) (width : ℚ)
  | circle (start : ℚ × ℚ) (radius width : ℚ)
  | arc (start : ℚ × ℚ) (radius startangle endangle width : ℚ)
  | polygon (pos : ℚ × ℚ) (angle : PolyAngle) (polygons : List (List (ℚ × ℚ)))
  | text (pos : ℚ × ℚ) (content : String) (height width : ℚ)
      (horizJustify : ℤ) (angle : ℚ)
deriving DecidableEq

/-! ## Shape parser -/

/-- Python `parse_poly_set(polygon_set)`: parse outlines in order; on the first
outline without a `PointCount` accessor, log and return what was parsed
so far. -/
def parsePolyOutlines : List Outline → List (List (ℚ × ℚ))
  | [] => []
  | o :: os =>
    if o.hasPointCount then (o.points.map normalize) :: parsePolyOutlines os
    else []

def parse_poly_set (ps : PolySet) : List (List (ℚ × ℚ)) :=
  parsePolyOutlines ps.outlines

/-- The `{S_SEGMENT: "segment", …}.get(d.GetShape(), "")` lookup. -/
def shapeOfCode (c : Nat) : String :=
  if c = S_SEGMENT then "segment"
  else if c = S_CIRCLE then "circle"
  else if c = S_ARC then "arc"
  else if c = S_POLYGON then "polygon"
  else ""

/-- Python `parse_draw_segment(d)`. -/
def parse_draw_segment (d : Item) : Option Drawing :=
  let shape := shapeOfCode d.shapeCode
  if shape = "" then none
  else
    let start := normalize d.start
    let end_ := normalize d.end_
    if shape = "segment" then
      some (.segment start end_ (scaleLen d.width))
    else if shape = "circle" then
      some (.circle start (scaleLen d.radius) (scaleLen d.width))
    else if shape = "arc" then
      let a1 : ℚ := (d.arcAngleStart : ℚ) * 0.1
      let a2 : ℚ := ((d.arcAngleStart : ℚ) + (d.angle : ℚ)) * 0.1
      let aa : ℚ × ℚ := if d.angle < 0 then (a2, a1) else (a1, a2)
      some (.arc start (scaleLen d.radius) aa.1 aa.2 (scaleLen d.width))
    else if shape = "polygon" then
      if d.hasPolyShape then
        let polygons := parse_poly_set d.polyShape
        let angle := match d.parentOrientation with
          | none => PolyAngle.intVal 0
          | some o => PolyAngle.tupleVal ((o : ℚ) * 0.1)
        some (.polygon start angle polygons)
      else none
    else none

/-- Python `parse_text(d)`. -/
def parse_text (d : Item) : Option Drawing :=
  let pos := normalize d.position
  if !d.visible then none
  else
    let angle : ℚ :=
      if d.klass = "MTEXT" then (d.drawRotation : ℚ) * 0.1
      else if d.hasTextAngle then (d.textAngle : ℚ) * 0.1
      else (d.orientation : ℚ) * 0.1
    let height := if d.hasTextHeight then scaleLen d.textHeight else scaleLen d.height
    let width := if d.hasTextHeight then scaleLen d.textWidth else scaleLen d.width
    let content := if d.hasShownText then d.shownText else d.text
    some (.text pos content height width d.horizJustify angle)

/-- Python `parse_drawing(d)`: dispatch on `GetClass()`. -/
def parse_drawing (d : Item) : Option Drawing :=
  if d.klass = "DRAWSEGMENT" ∨ d.klass = "MGRAPHIC" then parse_draw_segment d
  else if d.klass = "PTEXT" ∨ d.klass = "MTEXT" then parse_text d
  else none

/-! ## Outline and silkscreen extraction -/

/-- The drawing list walked by `parse_edges`: board drawings plus every
module's graphical items. -/
def edgeCandidates (pcb : Pcb) : List Item :=
  pcb.drawings ++ pcb.modules.flatMap Module.graphicalItems

/-- The body of the `parse_edges` loop for one drawing. -/
def edgeStep (acc : List Drawing × Option Rect) (d : Item) : List Drawing × Option Rect :=
  if d.layer = Edge_Cuts then
    match parse_drawing d with
    | some pd =>
      (acc.1 ++ [pd],
       some (match acc.2 with
             | none => d.boundingBox
             | some bb => rectMerge bb d.boundingBox))
    | none => acc
  else acc

/-- Python `parse_edges(pcb)`: parse the `Edge_Cuts` drawings and merge their
bounding boxes; the final box is normalized when present. -/
def parse_edges (pcb : Pcb) : List Drawing × Option Rect :=
  let r := (edgeCandidates pcb).foldl edgeStep ([], none)
  (r.1, r.2.map rectNormalize)

/-- The drawing list walked by `parse_silkscreen`: board drawings plus
every module's reference label, value label and graphical items. -/
def silkCandidates (pcb : Pcb) : List Item :=
  pcb.drawings ++ pcb.modules.flatMap
    (fun m => [m.referenceItem, m.valueItem] ++ m.graphicalItems)

/-- Python `parse_silkscreen(pcb)`: front and back silkscreen drawing lists. -/
def parse_silkscreen (pcb : Pcb) : List Drawing × List Drawing :=
  (silkCandidates pcb).foldl
    (fun acc d =>
      if d.layer ≠ F_SilkS ∧ d.layer ≠ B_SilkS then acc
      else
        match parse_drawing d with
        | none => acc
        | some dr =>
          if d.layer = F_SilkS then (acc.1 ++ [dr], acc.2) else (acc.1, acc.2 ++ [dr]))
    ([], [])

/-! ## Pad parser -/

/-- A parsed pad dictionary.  Optional dictionary keys are `Option`
fields (`none` = key absent); `drillshape`'s inner `Option` is the Python
value, which is `None` for an unrecognized drill-shape code.  `pin1`
models presence of the `'pin1': 1` entry. -/
structure PadDict where
  layers : List String
  pos : ℚ × ℚ
  size : ℚ × ℚ
  angle : ℚ
  shape : String
  pin1 : Bool
  polygons : Option (List (List (ℚ × ℚ)))
  radius : Option ℚ
  type_ : String
  drillshape : Option (Option String)
  drillsize : Option (ℚ × ℚ)
  offset : Option (ℚ × ℚ)
deriving DecidableEq

/-- The `shape_lookup` dictionary (with `PAD_SHAPE_ROUNDRECT` /
`PAD_SHAPE_CUSTOM` keys only when the API has them), then
`.get(pad.GetShape(), "")`. -/
def shapeLookup (api : Api) (c : Nat) : String :=
  if c = PAD_SHAPE_RECT then "rect"
  else if c = PAD_SHAPE_OVAL then "oval"
  else if c = PAD_SHAPE_CIRCLE then "circle"
  else if api.hasRoundRect ∧ c = PAD_SHAPE_ROUNDRECT then "roundrect"
  else if api.hasCustom ∧ c = PAD_SHAPE_CUSTOM then "custom"
  else ""

/-- The lookup `{PAD_DRILL_SHAPE_CIRCLE: "circle", …}.get(pad.GetDrillShape())`. -/
def drillLookup (c : Nat) : Option String :=
  if c = PAD_DRILL_SHAPE_CIRCLE then some "circle"
  else if c = PAD_DRILL_SHAPE_OBLONG then some "oblong"
  else none

/-- Python `parse_pad(pad)`. -/
def parse_pad (api : Api) (pad : Pad) : Option PadDict :=
  let layers := (if F_Cu ∈ pad.layerSet then ["F"] else []) ++
                (if B_Cu ∈ pad.layerSet then ["B"] else [])
  let pos := normalize pad.position
  let size := normalize pad.size
  let is_pin1 := pad.padName = "1" ∨ pad.padName = "A1"
  let angle : ℚ := (pad.orientation : ℚ) * (-0.1)
  let shape := shapeLookup api pad.shapeCode
  if shape = "" then none
  else
    let th := pad.padAttr = PAD_ATTRIB_STANDARD ∨ pad.padAttr = PAD_ATTRIB_HOLE_NOT_PLATED
    some
      { layers := layers
        pos := pos
        size := size
        angle := angle
        shape := shape
        pin1 := is_pin1
        polygons := if shape = "custom" then some (parse_poly_set pad.customShape) else none
        radius := if shape = "roundrect" then some (scaleLen pad.roundRectCornerRadius) else none
        type_ := if th then "th" else "smd"
        drillshape := if th then some (drillLookup pad.drillShapeCode) else none
        drillsize := if th then some (normalize pad.drillSize) else none
        offset := if pad.hasOffset then some (normalize pad.offset) else none }

/-! ## Footprint extraction (`parse_modules`) -/

/-- One entry of a module's `drawings` list. -/
structure ModDrawing where
  layer : String
  drawing : Drawing
deriving DecidableEq

/-- The per-module record `parse_modules` stores. -/
structure ModRecord where
  ref : String
  center : ℚ × ℚ
  bboxPos : ℚ × ℚ
  bboxSize : ℚ × ℚ
  pads : List PadDict
  drawings : List ModDrawing
  layer : Option String
deriving DecidableEq

/-- The body of the `parse_modules` loop for one module. -/
def extractModule (api : Api) (m : Module) : ModRecord :=
  { ref := m.ref
    center := normalize m.center
    bboxPos := normalize m.rectPos
    bboxSize := normalize m.rectSize
    drawings := m.graphicalItems.filterMap (fun d =>
      if d.layer ≠ F_Cu ∧ d.layer ≠ B_Cu then none
      else (parse_drawing d).map (fun dr =>
        { layer := if d.layer = F_Cu then "F" else "B", drawing := dr }))
    pads := m.pads.filterMap (parse_pad api)
    layer := if m.layer = F_Cu then some "F"
             else if m.layer = B_Cu then some "B" else none }

/-- Python dictionary assignment `d[k] = v` on an association list:
replace the value of an existing key, else append the new pair. -/
def dictSet (d : List (String × ModRecord)) (k : String) (v : ModRecord) :
    List (String × ModRecord) :=
  if k ∈ d.map Prod.fst then
    d.map (fun p => if p.1 = k then (k, v) else p)
  else d ++ [(k, v)]

/-- Python `parse_modules(pcb)`: the `reference → record` dictionary. -/
def parse_modules (api : Api) (ms : List Module) : List (String × ModRecord) :=
  ms.foldl (fun d m => dictSet d m.ref (extractModule api m)) []

/-! ## BOM aggregator (`generate_bom`) -/

/-- Lookup in `attr_dict` with `str(attr)` fallback. -/
def attrLabel (a : ℤ) : String :=
  if a = 0 then "Normal"
  else if a = 1 then "Normal+Insert"
  else if a = 2 then "Virtual"
  else toString a

/-- The resolved footprint name: `GetFootprintName()` if that call
succeeds, else `GetLibItemName()`. -/
def moduleFootprint (m : Module) : String := m.footprintName.getD m.libItemName

/-- A `(norm_value, footprint, attr)` grouping key. -/
structure GroupKey where
  normValue : String
  footprint : String
  attr : String
deriving DecidableEq

def moduleKey (nv : String → String) (m : Module) : GroupKey :=
  ⟨nv m.value, moduleFootprint m, attrLabel m.attr⟩

/-- Python `part_groups.setdefault(group_key, [value, []])[1].append(ref)` on an
association list in first-insertion order. -/
def groupAdd : List (GroupKey × String × List String) → GroupKey → String → String →
    List (GroupKey × String × List String)
  | [], k, v, r => [(k, v, [r])]
  | (k', v', rs) :: t, k, v, r =>
    if k' = k then (k', v', rs ++ [r]) :: t else (k', v', rs) :: groupAdd t k v r

/-- The test `filter_layer is not None and filter_layer != m.GetLayer()`. -/
def layerSkip (fl : Option ℤ) (m : Module) : Prop :=
  match fl with
  | some l => l ≠ m.layer
  | none => False

instance : DecidablePred (fun p : Option ℤ × Module => layerSkip p.1 p.2) := by
  rintro ⟨fl, m⟩
  cases fl <;> simp [layerSkip] <;> infer_instance

instance (fl : Option ℤ) (m : Module) : Decidable (layerSkip fl m) := by
  cases fl <;> simp [layerSkip] <;> infer_instance

/-- The grouped part list built by the first loop of `generate_bom`. -/
def part_groups (nv : String → String) (fl : Option ℤ) (ms : List Module) :
    List (GroupKey × String × List String) :=
  ms.foldl
    (fun gs m => if layerSkip fl m then gs else groupAdd gs (moduleKey nv m) m.value m.ref)
    []

/-- One BOM table line `(qty, value, footprint, refs)`. -/
structure BomRow where
  qty : ℕ
  value : String
  footprint : String
  refs : List String
deriving DecidableEq

/-- The second loop of `generate_bom`: drop `Virtual` groups, build lines
with naturally sorted references. -/
def bomLines (nv : String → String) (fl : Option ℤ) (ms : List Module) : List BomRow :=
  (part_groups nv fl ms).filterMap (fun e =>
    if e.1.attr = "Virtual" then none
    else some ⟨e.2.2.length, e.2.1, e.1.footprint, natural_sort e.2.2⟩)

/-- The references a group entry contributes to the BOM: none when its
attribute is `Virtual`, else its accumulated reference list. -/
def groupRefsNonVirtual (e : GroupKey × String × List String) : List String :=
  if e.1.attr = "Virtual" then [] else e.2.2

/-- Python `re.findall('^[A-Z]*', rf[0])[0]`: the leading run of uppercase
letters. -/
def leadingCaps (s : String) : String :=
  String.mk (s.data.takeWhile (fun c => 'A' ≤ c ∧ c ≤ 'Z'))

/-- The `ref_ord` dictionary with default `1000`. -/
def refOrd (p : String) : ℕ :=
  if p = "C" then 1
  else if p = "R" then 2
  else if p = "L" then 3
  else if p = "D" then 4
  else if p = "Q" then 5
  else if p = "U" then 6
  else if p = "Y" then 7
  else if p = "X" then 8
  else if p = "F" then 9
  else if p = "SW" then 10
  else if p = "A" then 11
  else if p = "HS" then 1996
  else if p = "CNN" then 1997
  else if p = "J" then 1998
  else if p = "P" then 1999
  else if p = "NT" then 2000
  else if p = "MH" then 2001
  else 1000

/-- The first reference of a row (`rf[0]`; rows always have at least one
reference, the `""` default is never reached). -/
def headRef (r : BomRow) : String := r.refs.headD ""

/-- The Python 4-tuple sort key, as a lexicographic product. -/
abbrev SortKey := ℕ ×ₗ String ×ₗ ℤ ×ₗ List Tok

/-- Python `sort_func(row) = (ref_ord, fp, -qty, alphanum_key(rf[0]))`. -/
def sort_func (r : BomRow) : SortKey :=
  toLex (refOrd (leadingCaps (headRef r)),
    toLex (r.footprint, toLex (-(r.qty : ℤ), alphanum_key (headRef r))))

/-- Row comparison used by `sorted(bom_table, key=sort_func)`. -/
def rowLe (a b : BomRow) : Prop := sort_func a ≤ sort_func b

instance : DecidableRel rowLe := fun a b =>
  inferInstanceAs (Decidable (sort_func a ≤ sort_func b))

instance : IsTotal BomRow rowLe := ⟨fun a b => le_total (sort_func a) (sort_func b)⟩

instance : IsTrans BomRow rowLe := ⟨fun _ _ _ hab hbc => le_trans hab hbc⟩

/-- Python `generate_bom(pcb, filter_layer)`. -/
def generate_bom (nv : String → String) (fl : Option ℤ) (ms : List Module) : List BomRow :=
  List.insertionSort rowLe (bomLines nv fl ms)

/-! ## `main` -/

structure Metadata where
  title : String
  revision : String
  company : String
  date : String
deriving DecidableEq

/-- The `pcbdata` document. -/
structure PcbData where
  edges_bbox : ℚ × ℚ × ℚ × ℚ
  edges : List Drawing
  silkscreen : List Drawing × List Drawing
  modules : List (String × ModRecord)
  metadata : Metadata
  bom_both : List BomRow
  bom_F : List BomRow
  bom_B : List BomRow

/-- Outcome of a run of `main`: a user-facing error message, or the
document handed to `generate_file`. -/
inductive MainResult where
  | err (msg : String)
  | ok (doc : PcbData)

def save_msg : String := "Please save the board file before generating BOM."

def outline_msg : String :=
  "Please draw pcb outline on the edges layer on sheet or any module before generating BOM."

/-- Python `main(pcb)`.  `nv` is the external `units.componentValue` helper. -/
def main (api : Api) (nv : String → String) (pcb : Pcb) : MainResult :=
  if pcb.fileName = "" then .err save_msg
  else
    let file_date := if pcb.titleDate = "" then pcb.fileMtimeStr else pcb.titleDate
    let title := if pcb.titleTitle = "" then pcb.fileBaseName else pcb.titleTitle
    let er := parse_edges pcb
    match er.2 with
    | none => .err outline_msg
    | some bb =>
      .ok
        { edges_bbox := ((bb.x : ℚ) * 1e-6, (bb.y : ℚ) * 1e-6,
            ((bb.x + bb.w : ℤ) : ℚ) * 1e-6, ((bb.y + bb.h : ℤ) : ℚ) * 1e-6)
          edges := er.1
          silkscreen := parse_silkscreen pcb
          modules := parse_modules api pcb.modules
          metadata := ⟨title, pcb.titleRevision, pcb.titleCompany, file_date⟩
          bom_both := generate_bom nv none pcb.modules
          bom_F := generate_bom nv (some F_Cu) pcb.modules
          bom_B := generate_bom nv (some B_Cu) pcb.modules }

/-! ## Concrete sample inputs (used by witnesses and counterexamples) -/

/-- A drawing item with all-zero geometry, to be updated per sample. -/
def item0 : Item :=
  { klass := "DRAWSEGMENT", layer := 0, boundingBox := ⟨0, 0, 0, 0⟩, shapeCode := 0
    start := (0, 0), end_ := (0, 0), width := 0, radius := 0
    arcAngleStart := 0, angle := 0
    hasPolyShape := false, polyShape := ⟨[], false, false⟩, parentOrientation := none
    position := (0, 0), visible := true, drawRotation := 0
    hasTextAngle := false, textAngle := 0, orientation := 0
    hasTextHeight := false, textHeight := 0, textWidth := 0, height := 0
    hasShownText := false, shownText := "", text := "", horizJustify := 0 }

/-- The full current `pcbnew` API (both optional pad shapes present). -/
def apiFull : Api := ⟨true, true⟩

/-- An arc of the spec's example: native start angle `0`, sweep `-900`. -/
def arcItemC3 : Item := { item0 with shapeCode := S_ARC, angle := -900 }

/-- A polygon item owned by a footprint of native orientation `900`. -/
def polyItemC4 : Item :=
  { item0 with shapeCode := S_POLYGON, hasPolyShape := true, parentOrientation := some 900 }

/-- A standard-plated pad with an unrecognized pad-shape code
(`PAD_SHAPE_TRAPEZOID`) and an unrecognized drill-shape code. -/
def padC9bad : Pad :=
  { layerSet := [F_Cu], position := (0, 0), size := (0, 0), padName := "1"
    orientation := 0, shapeCode := PAD_SHAPE_TRAPEZOID
    customShape := ⟨[], false, false⟩, roundRectCornerRadius := 0
    padAttr := PAD_ATTRIB_STANDARD, drillShapeCode := 7, drillSize := (0, 0)
    hasOffset := false, offset := (0, 0) }

/-- Like `padC9bad` but with the recognized `rect` pad shape. -/
def padC9rect : Pad := { padC9bad with shapeCode := PAD_SHAPE_RECT }

/-- A segment drawn on the board-outline layer. -/
def edgeItemC6 : Item := { item0 with layer := Edge_Cuts, shapeCode := S_SEGMENT }

/-- A saved board whose only drawing is one outline segment. -/
def pcbC6 : Pcb :=
  { fileName := "board.kicad_pcb", drawings := [edgeItemC6], modules := []
    titleTitle := "", titleDate := "", titleRevision := "", titleCompany := ""
    fileMtimeStr := "2018-01-01 00:00:00", fileBaseName := "board" }

/-- A bare resistor footprint. -/
def moduleR1 : Module :=
  { ref := "R1", value := "10k", footprintName := some "R_0805", libItemName := "R_0805"
    attr := 0, layer := F_Cu, center := (0, 0), rectPos := (0, 0), rectSize := (0, 0)
    orientation := 0, graphicalItems := [], referenceItem := item0, valueItem := item0
    pads := [] }

/-- A second footprint that reuses the reference `R1`. -/
def moduleR1dup : Module := { moduleR1 with value := "22k" }

end IBom

/-! # Theorems -/

namespace IBom

/-- C7: `normalize` scales each component of a native coordinate pair by
`1e-6 = 1/1000000`, preserving axis correspondence, and a native length
of `1000000` maps to exactly `1` (this also covers the per-length scaling
`x * 1e-6` used for widths, radii and sizes). -/
theorem C7_normalize_scale (x y : ℤ) :
    (normalize (x, y)).1 = (x : ℚ) / 1000000 ∧
    (normalize (x, y)).2 = (y : ℚ) / 1000000 ∧
    normalize (1000000, 1000000) = (1, 1) ∧
    scaleLen 1000000 = 1 := by
  refine ⟨?_, ?_, ?_, ?_⟩ <;> norm_num [normalize, scaleLen] <;> ring

/-- C3: an arc primitive is emitted with `startangle` = native start ×
0.1 and `endangle` = (native start + native sweep) × 0.1, the two being
swapped when the sweep is negative, so every emitted arc record satisfies
`startangle ≤ endangle`. -/
theorem C3_arc_angles (d : Item) (h : d.shapeCode = S_ARC) :
    parse_draw_segment d = some (.arc (normalize d.start) (scaleLen d.radius)
      (if d.angle < 0 then ((d.arcAngleStart : ℚ) + (d.angle : ℚ)) * 0.1
       else (d.arcAngleStart : ℚ) * 0.1)
      (if d.angle < 0 then (d.arcAngleStart : ℚ) * 0.1
       else ((d.arcAngleStart : ℚ) + (d.angle : ℚ)) * 0.1)
      (scaleLen d.width)) ∧
    (∀ st r a1 a2 w, parse_draw_segment d = some (.arc st r a1 a2 w) → a1 ≤ a2) := by
  have hs : shapeOfCode d.shapeCode = "arc" := by rw [h]; decide
  have heq : parse_draw_segment d = some (.arc (normalize d.start) (scaleLen d.radius)
      (if d.angle < 0 then ((d.arcAngleStart : ℚ) + (d.angle : ℚ)) * 0.1
       else (d.arcAngleStart : ℚ) * 0.1)
      (if d.angle < 0 then (d.arcAngleStart : ℚ) * 0.1
       else ((d.arcAngleStart : ℚ) + (d.angle : ℚ)) * 0.1)
      (scaleLen d.width)) := by
    simp only [parse_draw_segment, hs]
    rw [if_neg (by decide), if_neg (by decide), if_neg (by decide)]
    simp only [if_true]
    split <;> rfl
  refine ⟨heq, ?_⟩
  intro st r a1 a2 w hw
  rw [heq] at hw
  injection hw with hw
  injection hw with _ _ h1 h2
  subst h1
  subst h2
  by_cases hneg : d.angle < 0
  · simp only [if_pos hneg]
    have : (d.angle : ℚ) ≤ 0 := by exact_mod_cast le_of_lt hneg
    nlinarith
  · simp only [if_neg hneg]
    have : (0 : ℚ) ≤ (d.angle : ℚ) := by
      exact_mod_cast le_of_not_lt hneg
    nlinarith

/-- C3 witness: the spec's concrete arc (start `0`, sweep `-900`) parses
to `startangle = -90 ≤ endangle = 0`. -/
theorem C3_arc_angles_witness :
    parse_draw_segment arcItemC3 =
      some (.arc (normalize (0, 0)) 0 (-90) 0 0) ∧ (-90 : ℚ) ≤ 0 := by
  have h := C3_arc_angles arcItemC3 rfl
  refine ⟨?_, by norm_num⟩
  rw [h.1]
  norm_num [arcItemC3, item0, scaleLen]

/-- C4 (code bug): for a polygon belonging to a footprint, the emitted
rotation angle is — because of a trailing comma in the source — a
one-element tuple, not the number `orientation × 0.1`: at native
orientation `900` the record carries the tuple value `(90,)`. -/
theorem C4_polygon_angle_tuple :
    parse_draw_segment polyItemC4 =
      some (.polygon (normalize (0, 0)) (PolyAngle.tupleVal 90) []) ∧
    (∀ n : ℤ, PolyAngle.tupleVal 90 ≠ PolyAngle.intVal n) := by
  refine ⟨?_, fun n hn => by cases hn⟩
  simp only [parse_draw_segment, polyItemC4, item0]
  norm_num [shapeOfCode, S_SEGMENT, S_RECT, S_ARC, S_CIRCLE, S_POLYGON,
    parse_poly_set, parsePolyOutlines]
  simp +decide

/-- C5: `natural_sort` permutes its input and orders it by the
alternating digit/non-digit run comparison (digit runs as integers,
non-digit runs lowercased, run by run, shorter prefix first); in
particular `["R10","R2","R1"]` sorts to `["R1","R2","R10"]`. -/
theorem C5_natural_sort_order (l : List String) :
    List.Perm (natural_sort l) l ∧
    List.Pairwise alpha_le (natural_sort l) ∧
    natural_sort ["R10", "R2", "R1"] = ["R1", "R2", "R10"] := by
  refine ⟨List.perm_insertionSort _ _, List.sorted_insertionSort _ _, ?_⟩
  simp [natural_sort, List.insertionSort, List.orderedInsert, alpha_le, alphanum_key, chunks]
  decide

/-- C2: every BOM table is pairwise ordered by the priority chain
(fixed rank of the leading uppercase prefix of the first reference,
footprint ascending, quantity descending, natural key of the first
reference ascending); concretely a `C`-prefixed row of quantity 1 sorts
before an `R`-prefixed row of quantity 3. -/
theorem C2_bom_table_sorted (nv : String → String) (fl : Option ℤ) (ms : List Module) :
    List.Pairwise rowLe (generate_bom nv fl ms) ∧
    rowLe ⟨1, "1u", "0603", ["C1"]⟩ ⟨3, "10k", "0805", ["R1"]⟩ ∧
    ¬ rowLe ⟨3, "10k", "0805", ["R1"]⟩ ⟨1, "1u", "0603", ["C1"]⟩ := by
  refine ⟨List.sorted_insertionSort rowLe _, ?_, ?_⟩ <;>
    simp [rowLe, sort_func, headRef, leadingCaps, refOrd, alphanum_key, chunks] <;>
    decide

/-- C9 counterexample: a pad satisfying the claim's hypotheses
(standard-plated, drill-shape code neither circle nor oblong) is
nevertheless skipped — `parse_pad` returns `none` — when its pad-shape
code is unrecognized, so the claim as stated is false. -/
theorem C9_counterexample :
    padC9bad.padAttr = PAD_ATTRIB_STANDARD ∧
    padC9bad.drillShapeCode ≠ PAD_DRILL_SHAPE_CIRCLE ∧
    padC9bad.drillShapeCode ≠ PAD_DRILL_SHAPE_OBLONG ∧
    parse_pad apiFull padC9bad = none := by decide

/-- C9 (amended: restricted to pads whose pad-shape code is recognized):
for every pad with a recognized pad-shape code, plating attribute
standard-plated or hole-not-plated, and a drill-shape code that is
neither the circle nor the oblong code, `parse_pad` returns a record
with type `"th"`, a `drillsize`, and a `drillshape` key present but
holding the null value; the pad is not skipped. -/
theorem C9_unknown_drillshape (api : Api) (p : Pad)
    (hshape : shapeLookup api p.shapeCode ≠ "")
    (hattr : p.padAttr = PAD_ATTRIB_STANDARD ∨ p.padAttr = PAD_ATTRIB_HOLE_NOT_PLATED)
    (hc : p.drillShapeCode ≠ PAD_DRILL_SHAPE_CIRCLE)
    (ho : p.drillShapeCode ≠ PAD_DRILL_SHAPE_OBLONG) :
    ∃ pd, parse_pad api p = some pd ∧ pd.type_ = "th" ∧
      pd.drillshape = some none ∧ pd.drillsize = some (normalize p.drillSize) := by
  simp only [parse_pad, if_neg hshape]
  exact ⟨_, rfl, by simp [if_pos hattr],
    by simp [if_pos hattr, drillLookup, if_neg hc, if_neg ho],
    by simp [if_pos hattr]⟩

/-- C9 witness: a concrete `rect`-shaped standard pad with drill-shape
code `7` parses to a through-hole record with a null drill shape. -/
theorem C9_unknown_drillshape_witness :
    shapeLookup apiFull padC9rect.shapeCode ≠ "" ∧
    (∃ pd, parse_pad apiFull padC9rect = some pd ∧ pd.type_ = "th" ∧
      pd.drillshape = some none ∧ pd.drillsize = some (normalize (0, 0))) := by
  refine ⟨by decide, ?_⟩
  have h := C9_unknown_drillshape apiFull padC9rect (by decide) (by decide)
    (by decide) (by decide)
  simpa [padC9rect, padC9bad] using h

/-- Evaluation of `parse_poly_set` when every outline has the `PointCount` accessor. -/
theorem parsePolyOutlines_all (os : List Outline)
    (h : ∀ o ∈ os, o.hasPointCount = true) :
    parsePolyOutlines os = os.map (fun o => o.points.map normalize) := by
  induction os with
  | nil => rfl
  | cons o t ih =>
    rw [parsePolyOutlines, if_pos (h o (by simp)), ih (fun o ho => h o (by simp [ho]))]
    rfl

/-- Truncation: `parse_poly_set` stops at the first outline without the accessor. -/
theorem parsePolyOutlines_stop (good : List Outline) (bad : Outline) (rest : List Outline)
    (hgood : ∀ o ∈ good, o.hasPointCount = true) (hbad : bad.hasPointCount = false) :
    parsePolyOutlines (good ++ bad :: rest) =
      good.map (fun o => o.points.map normalize) := by
  induction good with
  | nil => simp [parsePolyOutlines, hbad]
  | cons o t ih =>
    rw [List.cons_append, parsePolyOutlines, if_pos (hgood o (by simp)),
      ih (fun o ho => hgood o (by simp [ho]))]
    rfl

/-- C10: when some outline of a polygon set lacks the `PointCount`
accessor, `parse_poly_set` returns exactly the outlines fully parsed
before the first such outline, silently dropping it and all later ones;
when every outline has the accessor, it returns one normalized point
sequence per outline, in order. -/
theorem C10_poly_set_truncation (ps ps2 : PolySet) (good : List Outline) (bad : Outline)
    (rest : List Outline) (hsplit : ps.outlines = good ++ bad :: rest)
    (hgood : ∀ o ∈ good, o.hasPointCount = true) (hbad : bad.hasPointCount = false)
    (hall : ∀ o ∈ ps2.outlines, o.hasPointCount = true) :
    parse_poly_set ps = good.map (fun o => o.points.map normalize) ∧
    parse_poly_set ps2 = ps2.outlines.map (fun o => o.points.map normalize) := by
  constructor
  · rw [parse_poly_set, hsplit]
    exact parsePolyOutlines_stop good bad rest hgood hbad
  · exact parsePolyOutlines_all ps2.outlines hall

/-- C10 witness: concrete polygon sets exercising both halves. -/
theorem C10_poly_set_truncation_witness :
    parse_poly_set ⟨[⟨true, [(1, 2)]⟩, ⟨false, [(3, 4)]⟩, ⟨true, [(5, 6)]⟩], false, false⟩ =
      [[normalize (1, 2)]] ∧
    parse_poly_set ⟨[⟨true, [(7, 8)]⟩], false, false⟩ = [[normalize (7, 8)]] := by
  have h := C10_poly_set_truncation
    ⟨[⟨true, [(1, 2)]⟩, ⟨false, [(3, 4)]⟩, ⟨true, [(5, 6)]⟩], false, false⟩
    ⟨[⟨true, [(7, 8)]⟩], false, false⟩
    [⟨true, [(1, 2)]⟩] ⟨false, [(3, 4)]⟩ [⟨true, [(5, 6)]⟩]
    rfl (by simp) rfl (by simp)
  simpa using h

/-- The running bounding box of the `parse_edges` loop is `none` exactly
when it started as `none` and no `Edge_Cuts` drawing parsed. -/
theorem edges_foldl_none (l : List Item) :
    ∀ acc : List Drawing × Option Rect,
      (l.foldl edgeStep acc).2 = none ↔
        acc.2 = none ∧ ∀ d ∈ l, d.layer = Edge_Cuts → parse_drawing d = none := by
  induction l with
  | nil => intro acc; simp
  | cons d t ih =>
    intro acc
    rw [List.foldl_cons, ih, List.forall_mem_cons]
    constructor
    · rintro ⟨h1, h2⟩
      rw [edgeStep] at h1
      by_cases hl : d.layer = Edge_Cuts
      · rw [if_pos hl] at h1
        cases hp : parse_drawing d with
        | none => rw [hp] at h1; exact ⟨h1, fun _ => rfl, h2⟩
        | some pd => rw [hp] at h1; exact absurd h1 (by simp)
      · rw [if_neg hl] at h1
        exact ⟨h1, fun hcon => absurd hcon hl, h2⟩
    · rintro ⟨h1, hd, h2⟩
      refine ⟨?_, h2⟩
      rw [edgeStep]
      by_cases hl : d.layer = Edge_Cuts
      · rw [if_pos hl, hd hl]
        exact h1
      · rw [if_neg hl]; exact h1

/-- C6: on a saved board, if no drawing on the board-outline layer parses
then `main` stops with the user-facing outline error and produces no
document; if at least one parses, `main` produces the output document. -/
theorem C6_outline_fatal (api : Api) (nv : String → String) (pcb : Pcb)
    (hname : pcb.fileName ≠ "") :
    ((∀ d ∈ edgeCandidates pcb, d.layer = Edge_Cuts → parse_drawing d = none) →
      main api nv pcb = .err outline_msg) ∧
    ((∃ d ∈ edgeCandidates pcb, d.layer = Edge_Cuts ∧ parse_drawing d ≠ none) →
      ∃ doc, main api nv pcb = .ok doc) := by
  constructor
  · intro hall
    have h2 : (parse_edges pcb).2 = none := by
      rw [parse_edges]
      simp only [Option.map_eq_none']
      exact (edges_foldl_none (edgeCandidates pcb) ([], none)).2 ⟨rfl, hall⟩
    simp only [main, if_neg hname]
    rw [h2]
  · rintro ⟨d, hd, hlay, hparse⟩
    have h2 : (List.foldl edgeStep ([], none) (edgeCandidates pcb)).2 ≠ none := by
      intro hno
      obtain ⟨-, hall⟩ := (edges_foldl_none (edgeCandidates pcb) ([], none)).1 hno
      exact hparse (hall d hd hlay)
    cases hbb : (List.foldl edgeStep ([], none) (edgeCandidates pcb)).2 with
    | none => exact absurd hbb h2
    | some bb =>
      simp only [main, if_neg hname, parse_edges, hbb, Option.map_some']
      exact ⟨_, rfl⟩

/-- C6 witness: a saved board with one outline segment yields a
document. -/
theorem C6_outline_fatal_witness :
    pcbC6.fileName ≠ "" ∧ (∃ doc, main apiFull id pcbC6 = .ok doc) := by
  refine ⟨by decide, ?_⟩
  exact (C6_outline_fatal apiFull id pcbC6 (by decide)).2
    ⟨edgeItemC6, by simp [edgeCandidates, pcbC6], rfl, by decide⟩

/-- Replacing the value stored at key `k` leaves other lookups alone. -/
theorem lookup_replaceKey_ne (d : List (String × ModRecord)) (k : String) (v : ModRecord)
    (r : String) (hrk : r ≠ k) :
    (d.map (fun p => if p.1 = k then (k, v) else p)).lookup r = d.lookup r := by
  induction d with
  | nil => rfl
  | cons p t ih =>
    obtain ⟨k₁, v₁⟩ := p
    rw [List.map_cons]
    by_cases hp : k₁ = k
    · rw [if_pos (show (k₁, v₁).1 = k from hp)]
      have h1 : (r == k) = false := by simpa using hrk
      have h2 : (r == k₁) = false := by rw [hp]; exact h1
      simp only [List.lookup_cons, h1, h2]
      exact ih
    · rw [if_neg (show ¬(k₁, v₁).1 = k from hp)]
      simp only [List.lookup_cons]
      cases hbe : (r == k₁) <;> simp [hbe, ih]

/-- Replacing the value stored at an existing key `k` makes `k` look up
the new value. -/
theorem lookup_replaceKey_self (d : List (String × ModRecord)) (k : String) (v : ModRecord)
    (hk : k ∈ d.map Prod.fst) :
    (d.map (fun p => if p.1 = k then (k, v) else p)).lookup k = some v := by
  induction d with
  | nil => simp at hk
  | cons p t ih =>
    obtain ⟨k₁, v₁⟩ := p
    rw [List.map_cons]
    by_cases hp : k₁ = k
    · rw [if_pos (show (k₁, v₁).1 = k from hp)]
      exact List.lookup_cons_self
    · rw [if_neg (show ¬(k₁, v₁).1 = k from hp)]
      have hk' : k ∈ t.map Prod.fst := by
        rcases (by simpa using hk : k = k₁ ∨ k ∈ t.map Prod.fst) with h | h
        · exact absurd h.symm hp
        · exact h
      have h2 : (k == k₁) = false := by simpa using fun h => hp h.symm
      simp only [List.lookup_cons, h2]
      exact ih hk'

/-- Python dictionary lookup after `d[k] = v`. -/
theorem dictSet_lookup (d : List (String × ModRecord)) (k : String) (v : ModRecord)
    (r : String) :
    (dictSet d k v).lookup r = if r = k then some v else d.lookup r := by
  rw [dictSet]
  split
  case isTrue hk =>
    by_cases hr : r = k
    · subst hr
      rw [if_pos rfl]
      exact lookup_replaceKey_self d r v hk
    · rw [if_neg hr]
      exact lookup_replaceKey_ne d k v r hr
  case isFalse hk =>
    rw [List.lookup_append]
    by_cases hr : r = k
    · subst hr
      have hd : d.lookup r = none := by
        rw [List.lookup_eq_none_iff]
        intro p hp
        simp only [bne_iff_ne, ne_eq]
        intro h
        exact hk (by rw [h]; exact List.mem_map_of_mem Prod.fst hp)
      simp [hd]
    · have h1 : (r == k) = false := by simpa using hr
      simp only [List.lookup_cons, h1, List.lookup_nil, if_neg hr]
      cases d.lookup r <;> rfl

/-- The key list after `d[k] = v`. -/
theorem dictSet_keys (d : List (String × ModRecord)) (k : String) (v : ModRecord) :
    (dictSet d k v).map Prod.fst =
      if k ∈ d.map Prod.fst then d.map Prod.fst else d.map Prod.fst ++ [k] := by
  rw [dictSet]
  split
  · rw [List.map_map]
    exact List.map_congr_left fun p _ => by by_cases hp : p.1 = k <;> simp [hp]
  · simp

/-- Entry count for a fixed key after `d[k] = v`. -/
theorem dictSet_countP (d : List (String × ModRecord)) (k : String) (v : ModRecord)
    (r : String) :
    (dictSet d k v).countP (fun e => e.1 == r) =
      if k ∈ d.map Prod.fst then d.countP (fun e => e.1 == r)
      else d.countP (fun e => e.1 == r) + (if k = r then 1 else 0) := by
  rw [dictSet]
  split
  · rw [List.countP_map]
    exact List.countP_congr fun p _ => by by_cases hp : p.1 = k <;> simp [hp]
  · rw [List.countP_append]
    by_cases hkr : k = r <;> simp [List.countP_cons, hkr]

/-- One step of the `parse_modules` fold, from the right. -/
theorem parse_modules_append (api : Api) (ms : List Module) (m : Module) :
    parse_modules api (ms ++ [m]) =
      dictSet (parse_modules api ms) m.ref (extractModule api m) := by
  simp [parse_modules, List.foldl_append]

/-- A reference is a key of the module dictionary iff some module has
it. -/
theorem parse_modules_keys (api : Api) (ms : List Module) (r : String) :
    r ∈ (parse_modules api ms).map Prod.fst ↔ ∃ m ∈ ms, m.ref = r := by
  induction ms using List.reverseRecOn with
  | nil => simp [parse_modules]
  | append_singleton t m ih =>
    rw [parse_modules_append, dictSet_keys]
    split <;> rename_i hmem
    · rw [ih]
      constructor
      · rintro ⟨m', hm', rfl⟩
        exact ⟨m', by simp [hm'], rfl⟩
      · rintro ⟨m', hm', rfl⟩
        rcases (by simpa using hm' : m' ∈ t ∨ m' = m) with h | rfl
        · exact ⟨m', h, rfl⟩
        · exact ih.1 (by simpa [ih] using hmem)
    · simp only [List.mem_append, List.mem_singleton, ih]
      constructor
      · rintro (⟨m', hm', rfl⟩ | rfl)
        · exact ⟨m', Or.inl hm', rfl⟩
        · exact ⟨m, Or.inr rfl, rfl⟩
      · rintro ⟨m', hm' | rfl, rfl⟩
        · exact Or.inl ⟨m', hm', rfl⟩
        · exact Or.inr rfl

/-- The module dictionary holds at most — and, once seen, exactly — one
entry per reference. -/
theorem parse_modules_countP (api : Api) (ms : List Module) (r : String) :
    (parse_modules api ms).countP (fun e => e.1 == r) =
      if ∃ m ∈ ms, m.ref = r then 1 else 0 := by
  induction ms using List.reverseRecOn with
  | nil => simp [parse_modules]
  | append_singleton t m ih =>
    rw [parse_modules_append, dictSet_countP, ih]
    by_cases hmem : m.ref ∈ (parse_modules api t).map Prod.fst
    · rw [if_pos hmem]
      rw [parse_modules_keys] at hmem
      obtain ⟨m', hm', hr' ⟩ := hmem
      by_cases hex : ∃ m' ∈ t, m'.ref = r
      · rw [if_pos hex, if_pos (by obtain ⟨m'', h1, h2⟩ := hex; exact ⟨m'', by simp [h1], h2⟩)]
      · rw [if_neg hex, if_neg ?_]
        rintro ⟨m'', hm'', h2⟩
        rcases (by simpa using hm'' : m'' ∈ t ∨ m'' = m) with h | rfl
        · exact hex ⟨m'', h, h2⟩
        · exact hex ⟨m', hm', by rw [hr', h2]⟩
    · rw [if_neg hmem]
      rw [parse_modules_keys] at hmem
      by_cases hex : ∃ m' ∈ t, m'.ref = r
      · have hne : m.ref ≠ r := fun h =>
          hmem (by obtain ⟨m'', h1, h2⟩ := hex; exact ⟨m'', h1, by rw [h2, ← h]⟩)
        rw [if_pos hex, if_neg hne,
          if_pos (by obtain ⟨m'', h1, h2⟩ := hex; exact ⟨m'', by simp [h1], h2⟩)]
      · rw [if_neg hex]
        by_cases hmr : m.ref = r
        · rw [if_pos hmr, if_pos ⟨m, by simp, hmr⟩]
        · rw [if_neg hmr, if_neg ?_]
          rintro ⟨m'', hm'', h2⟩
          rcases (by simpa using hm'' : m'' ∈ t ∨ m'' = m) with h | rfl
          · exact hex ⟨m'', h, h2⟩
          · exact hmr h2

/-- The module dictionary maps a reference to the record of the last
module carrying it. -/
theorem parse_modules_lookup (api : Api) (ms : List Module) (r : String) :
    (parse_modules api ms).lookup r =
      ((ms.filter (fun m => m.ref == r)).getLast?).map (extractModule api) := by
  induction ms using List.reverseRecOn with
  | nil => simp [parse_modules]
  | append_singleton t m ih =>
    rw [parse_modules_append, dictSet_lookup, List.filter_append]
    by_cases hr : r = m.ref
    · rw [if_pos hr]
      have : (List.filter (fun m => m.ref == r) [m]) = [m] := by simp [hr]
      rw [this, List.getLast?_concat]
      simp [hr]
    · rw [if_neg hr]
      have hne : ¬ m.ref = r := fun h => hr h.symm
      have : (List.filter (fun m => m.ref == r) [m]) = [] := by simp [hne]
      rw [this, List.append_nil, ih]

/-- C8: when two or more footprints share a reference, the module
dictionary holds exactly one entry for it, namely the record extracted
from the last-enumerated footprint with that reference. -/
theorem C8_duplicate_refs_last_wins (api : Api) (ms : List Module) (r : String)
    (hdup : 2 ≤ (ms.filter (fun m => m.ref == r)).length) :
    (parse_modules api ms).countP (fun e => e.1 == r) = 1 ∧
    (parse_modules api ms).lookup r =
      ((ms.filter (fun m => m.ref == r)).getLast?).map (extractModule api) := by
  refine ⟨?_, parse_modules_lookup api ms r⟩
  rw [parse_modules_countP, if_pos ?_]
  have hne : ms.filter (fun m => m.ref == r) ≠ [] := by
    intro h
    rw [h] at hdup
    simp at hdup
  obtain ⟨m, hm⟩ := List.exists_mem_of_ne_nil _ hne
  have := List.mem_filter.1 hm
  exact ⟨m, this.1, by simpa using this.2⟩

/-- C8 witness: two footprints named `R1`; the dictionary keeps one entry
holding the second one's record. -/
theorem C8_duplicate_refs_last_wins_witness :
    2 ≤ (([moduleR1, moduleR1dup].filter (fun m => m.ref == "R1")).length) ∧
    ((parse_modules apiFull [moduleR1, moduleR1dup]).countP (fun e => e.1 == "R1") = 1 ∧
     (parse_modules apiFull [moduleR1, moduleR1dup]).lookup "R1" =
       (([moduleR1, moduleR1dup].filter (fun m => m.ref == "R1")).getLast?).map
         (extractModule apiFull)) :=
  ⟨by decide, C8_duplicate_refs_last_wins apiFull [moduleR1, moduleR1dup] "R1" (by decide)⟩

/-- The operation `groupAdd` preserves the invariant that every entry's key holds the
normalized form of the entry's stored display value. -/
theorem groupAdd_inv (nv : String → String) (gs : List (GroupKey × String × List String))
    (k : GroupKey) (v r : String)
    (h : ∀ e ∈ gs, e.1.normValue = nv e.2.1) (hk : k.normValue = nv v) :
    ∀ e ∈ groupAdd gs k v r, e.1.normValue = nv e.2.1 := by
  induction gs with
  | nil =>
    intro e he
    rw [groupAdd] at he
    rcases List.mem_singleton.1 he with rfl
    exact hk
  | cons p t ih =>
    obtain ⟨k', v', rs⟩ := p
    intro e he
    rw [groupAdd] at he
    by_cases hkk : k' = k
    · rw [if_pos hkk] at he
      rcases List.mem_cons.1 he with rfl | het
      · exact h (k', v', rs) (List.mem_cons_self _ _)
      · exact h _ (by simp [het])
    · rw [if_neg hkk] at he
      rcases List.mem_cons.1 he with rfl | het
      · exact h (k', v', rs) (List.mem_cons_self _ _)
      · exact ih (fun e he => h e (by simp [he])) e het

/-- Every entry of `part_groups` keys the normalized form of its stored
display value. -/
theorem part_groups_loop_inv (nv : String → String) (fl : Option ℤ) (ms : List Module) :
    ∀ gs, (∀ e ∈ gs, e.1.normValue = nv e.2.1) →
      ∀ e ∈ ms.foldl
        (fun gs m => if layerSkip fl m then gs
                     else groupAdd gs (moduleKey nv m) m.value m.ref) gs,
        e.1.normValue = nv e.2.1 := by
  induction ms with
  | nil => intro gs hgs; simpa using hgs
  | cons m t ih =>
    intro gs hgs
    rw [List.foldl_cons]
    by_cases hskip : layerSkip fl m
    · rw [if_pos hskip]
      exact ih gs hgs
    · rw [if_neg hskip]
      exact ih _ (groupAdd_inv nv gs (moduleKey nv m) m.value m.ref hgs rfl)

theorem part_groups_inv (nv : String → String) (fl : Option ℤ) (ms : List Module) :
    ∀ e ∈ part_groups nv fl ms, e.1.normValue = nv e.2.1 :=
  part_groups_loop_inv nv fl ms [] (by simp)

/-- Adding one reference to the grouped part list adds exactly that
reference to the flattened non-virtual reference multiset (nothing when
its group is virtual). -/
theorem groupAdd_flatMap (gs : List (GroupKey × String × List String))
    (k : GroupKey) (v r : String) :
    List.Perm ((groupAdd gs k v r).flatMap groupRefsNonVirtual)
      ((gs.flatMap groupRefsNonVirtual) ++ (if k.attr = "Virtual" then [] else [r])) := by
  induction gs with
  | nil =>
    rw [groupAdd]
    by_cases hv : k.attr = "Virtual" <;>
      simp [groupRefsNonVirtual, hv]
  | cons p t ih =>
    obtain ⟨k', v', rs⟩ := p
    rw [groupAdd]
    by_cases hkk : k' = k
    · rw [if_pos hkk]
      rw [List.flatMap_cons, List.flatMap_cons]
      by_cases hv : k.attr = "Virtual"
      · have hv' : k'.attr = "Virtual" := by rw [hkk]; exact hv
        simp [groupRefsNonVirtual, hv, hv']
      · have hv' : ¬ k'.attr = "Virtual" := by rw [hkk]; exact hv
        simp only [groupRefsNonVirtual, if_neg hv, if_neg hv']
        rw [List.append_assoc, List.append_assoc]
        exact List.Perm.append_left rs List.perm_append_comm
    · rw [if_neg hkk]
      rw [List.flatMap_cons, List.flatMap_cons, List.append_assoc]
      exact List.Perm.append_left _ ih

/-- Folding the unrestricted grouping loop over modules appends exactly
the non-virtual modules' references to the flattened reference
multiset. -/
theorem part_groups_none_flatMap (nv : String → String) (ms : List Module) :
    ∀ gs, List.Perm
      ((ms.foldl
        (fun gs m => if layerSkip none m then gs
                     else groupAdd gs (moduleKey nv m) m.value m.ref) gs).flatMap
          groupRefsNonVirtual)
      ((gs.flatMap groupRefsNonVirtual) ++
        (ms.filter (fun m => attrLabel m.attr != "Virtual")).map Module.ref) := by
  induction ms with
  | nil => intro gs; simp
  | cons m t ih =>
    intro gs
    rw [List.foldl_cons, if_neg (by simp [layerSkip])]
    refine (ih _).trans ?_
    have hstep := groupAdd_flatMap gs (moduleKey nv m) m.value m.ref
    have hattr : (moduleKey nv m).attr = attrLabel m.attr := rfl
    by_cases hv : attrLabel m.attr = "Virtual"
    · have h1 : (if (moduleKey nv m).attr = "Virtual" then ([] : List String) else [m.ref]) = [] := by
        rw [hattr, if_pos hv]
      rw [h1, List.append_nil] at hstep
      have h2 : List.filter (fun m => attrLabel m.attr != "Virtual") (m :: t) =
          List.filter (fun m => attrLabel m.attr != "Virtual") t := by
        rw [List.filter_cons_of_neg (by simp [hv])]
      rw [h2]
      exact hstep.append_right _
    · have h1 : (if (moduleKey nv m).attr = "Virtual" then ([] : List String) else [m.ref]) = [m.ref] := by
        rw [hattr, if_neg hv]
      rw [h1] at hstep
      have h2 : List.filter (fun m => attrLabel m.attr != "Virtual") (m :: t) =
          m :: List.filter (fun m => attrLabel m.attr != "Virtual") t := by
        rw [List.filter_cons_of_pos (by simp [hv])]
      rw [h2, List.map_cons]
      refine (hstep.append_right _).trans ?_
      rw [List.append_assoc, List.singleton_append]

/-- Flattening the references of the built BOM lines is a permutation of
the flattened non-virtual group references (rows only reorder each
group's references by natural sort). -/
theorem bomLines_flatMap_perm (gs : List (GroupKey × String × List String)) :
    List.Perm
      ((gs.filterMap (fun e =>
        if e.1.attr = "Virtual" then none
        else some (⟨e.2.2.length, e.2.1, e.1.footprint, natural_sort e.2.2⟩ : BomRow))).flatMap
          BomRow.refs)
      (gs.flatMap groupRefsNonVirtual) := by
  induction gs with
  | nil => rfl
  | cons e t ih =>
    obtain ⟨k, v, rs⟩ := e
    by_cases hv : k.attr = "Virtual"
    · rw [List.filterMap_cons, List.flatMap_cons]
      simp only [if_pos hv]
      rw [show groupRefsNonVirtual (k, v, rs) = [] from if_pos hv, List.nil_append]
      exact ih
    · rw [List.filterMap_cons, List.flatMap_cons]
      simp only [if_neg hv]
      rw [List.flatMap_cons,
        show groupRefsNonVirtual (k, v, rs) = rs from if_neg hv]
      exact (List.perm_insertionSort alpha_le rs).append ih

/-- C1: in the unrestricted BOM every row's quantity is the number of
references accumulated under its `(normalizeValue(value), footprint,
attribute)` grouping key, no emitted row comes from a `Virtual` group,
and the references of all rows together form exactly the multiset of
references of the non-virtual footprints. -/
theorem C1_bom_rows_complete (nv : String → String) (ms : List Module) :
    (∀ row ∈ generate_bom nv none ms, ∃ attr refs, attr ≠ "Virtual" ∧
      ((⟨nv row.value, row.footprint, attr⟩ : GroupKey), row.value, refs) ∈
        part_groups nv none ms ∧
      row.qty = refs.length ∧ List.Perm row.refs refs) ∧
    List.Perm ((generate_bom nv none ms).flatMap BomRow.refs)
      ((ms.filter (fun m => attrLabel m.attr != "Virtual")).map Module.ref) := by
  constructor
  · intro row hrow
    rw [generate_bom, List.mem_insertionSort, bomLines] at hrow
    obtain ⟨e, he, hfe⟩ := List.mem_filterMap.1 hrow
    obtain ⟨k, v, rs⟩ := e
    by_cases hv : k.attr = "Virtual"
    · rw [if_pos hv] at hfe
      cases hfe
    · rw [if_neg hv] at hfe
      obtain rfl := (Option.some.inj hfe).symm
      refine ⟨k.attr, rs, hv, ?_, rfl, List.perm_insertionSort alpha_le rs⟩
      have hkv : k.normValue = nv v := part_groups_inv nv none ms (k, v, rs) he
      have hk : (⟨nv v, k.footprint, k.attr⟩ : GroupKey) = k := by
        cases k
        simp only at hkv
        rw [hkv]
      rw [show (⟨rs.length, v, k.footprint, natural_sort rs⟩ : BomRow).value = v from rfl,
        show (⟨rs.length, v, k.footprint, natural_sort rs⟩ : BomRow).footprint = k.footprint
          from rfl, hk]
      exact he
  · refine ((List.perm_insertionSort rowLe _).flatMap_right BomRow.refs).trans ?_
    rw [bomLines]
    refine (bomLines_flatMap_perm (part_groups nv none ms)).trans ?_
    have h := part_groups_none_flatMap nv ms []
    rw [part_groups]
    simpa using h

end IBom
